import Mathlib

/-!
Verification of the per-message code-generation engine of `rust-protobuf`
(`protobuf-codegen/src/message.rs`), against its natural-language design
specification.

The development shallowly embeds:
  * the schema-level data consumed by `MessageGen` (field descriptors with
    proto type, kind and field number, oneof declarations, customization
    option layers), and the field-list filters defined in `message.rs`
    (`required_fields`, `message_fields`, `fields_except_oneof`,
    `fields_except_group`, `fields_except_oneof_and_group`);
  * the runtime behaviour of the *generated* code: the size pass emitted by
    `write_compute_size`, the encode pass emitted by
    `write_write_to_with_cached_sizes`, the decode loop emitted by
    `write_merge_from`, the validity check emitted by `write_is_initialized`
    and the clear emitted by `write_impl_clear`.
Per-field helpers live in `field.rs` / the wire runtime, which are not part
of the sources under verification; those are modelled from the spec and are
marked `Modelled from the spec:` in their doc comments.

Machine integers are modelled as `Nat`; a "byte" is a `Nat` (the wire-level
byte value), so `List Nat` is a byte string.
-/

namespace RustProtobuf

/-! ## Wire primitives (Modelled from the spec: the Wire Runtime collaborator,
    §1 "Low-level wire primitives (variable-length integer encode/decode,
    zig-zag transforms, tag packing/unpacking)" — `protobuf/src/rt.rs` and
    the coded-stream implementation are not under the verified sources). -/

/-- Modelled from the spec: LEB128 variable-length integer encoding used by
the Wire Runtime for varints.  Produces the little-endian base-128 byte
string of `n`, each byte but the last with the continuation bit set. -/
def varintEncode (n : Nat) : List Nat :=
  if n < 128 then [n]
  else (n % 128 + 128) :: varintEncode (n / 128)
  decreasing_by exact Nat.div_lt_self (by omega) (by omega)

/-- Modelled from the spec: the Wire Runtime's arithmetic size computation
for a varint (`compute_raw_varint32_size` and friends): number of base-128
digits of `n`. -/
def varintSize (n : Nat) : Nat :=
  if n < 128 then 1
  else 1 + varintSize (n / 128)
  decreasing_by exact Nat.div_lt_self (by omega) (by omega)

/-- The arithmetic varint size agrees with the length of the varint
encoding. -/
theorem varintEncode_length (n : Nat) : (varintEncode n).length = varintSize n := by
  induction n using Nat.strong_induction_on with
  | _ n ih =>
    rw [varintEncode, varintSize]
    by_cases h : n < 128
    · simp [h]
    · simp only [h, if_false, List.length_cons]
      rw [ih (n / 128) (Nat.div_lt_self (by omega) (by omega))]
      omega

/-- A varint encoding is never empty (at least one byte is produced). -/
theorem varintEncode_ne_nil (n : Nat) : varintEncode n ≠ [] := by
  rw [varintEncode]
  by_cases h : n < 128 <;> simp [h]

/-- Modelled from the spec: the Wire Runtime's little-endian 8-byte encoding
of a 64-bit fixed-width value. -/
def fixed64Encode (n : Nat) : List Nat :=
  (List.range 8).map (fun i => n / 256 ^ i % 256)

/-- Modelled from the spec: the Wire Runtime's little-endian 4-byte encoding
of a 32-bit fixed-width value. -/
def fixed32Encode (n : Nat) : List Nat :=
  (List.range 4).map (fun i => n / 256 ^ i % 256)

theorem fixed64Encode_length (n : Nat) : (fixed64Encode n).length = 8 := by
  simp [fixed64Encode]

theorem fixed32Encode_length (n : Nat) : (fixed32Encode n).length = 4 := by
  simp [fixed32Encode]

/-- Wire types of the protocol-buffers binary format (glossary: "one of a
small fixed set of payload shapes"). -/
inductive WireType where
  | varint
  | fixed64
  | lengthDelimited
  | startGroup
  | endGroup
  | fixed32
deriving DecidableEq, Repr

/-- Numeric code of a wire type, as packed into a tag. -/
def WireType.code : WireType → Nat
  | .varint => 0
  | .fixed64 => 1
  | .lengthDelimited => 2
  | .startGroup => 3
  | .endGroup => 4
  | .fixed32 => 5

/-- Modelled from the spec: tag packing — `(field-number, wire-type)` packed
as `number * 8 + wire-type code`. -/
def makeTag (number : Nat) (wt : WireType) : Nat :=
  number * 8 + wt.code

/-! ## Schema-level data (the input of `MessageGen`) -/

/-- Proto field types, mirroring `FieldDescriptorProto_Type` as consumed by
`message.rs` (`TYPE_MESSAGE` in `message_fields`, `TYPE_GROUP` in
`fields_except_group` and `write_struct`). -/
inductive PType where
  | doubleT | floatT | int64T | uint64T | int32T
  | fixed64T | fixed32T | boolT | stringT | groupT
  | messageT | bytesT | uint32T | enumT
  | sfixed32T | sfixed64T | sint32T | sint64T
deriving DecidableEq, Repr

/-- Presence flag of a singular field, mirroring `SingularFieldFlag` from
`field.rs`: `WithFlag { required }` tracks presence explicitly (an `Option`
storage), `WithoutFlag` uses the implicit zero-default sentinel. -/
inductive SingularFlag where
  | withFlag (required : Bool)
  | withoutFlag
deriving DecidableEq, Repr

/-- `SingularFieldFlag::is_required`. -/
def SingularFlag.is_required : SingularFlag → Bool
  | .withFlag r => r
  | .withoutFlag => false

/-- Field kinds, mirroring `FieldKind` from `field.rs` as matched on in
`message.rs` (`required_fields`, `write_is_initialized`, `write_struct`). -/
inductive FieldKind where
  | singular (flag : SingularFlag)
  | repeated
  | map
  | oneof (idx : Nat)
deriving DecidableEq, Repr

/-- The part of `FieldGen` (one parsed field of a message) that the
message-level generator consumes: the field number (`proto_field.number()`),
the proto type (`proto_type`) and the field kind (`kind`). -/
structure FieldGen where
  number : Nat
  proto_type : PType
  kind : FieldKind
deriving DecidableEq, Repr

/-- `FieldGen::is_oneof` — the field belongs to a oneof. -/
def FieldGen.is_oneof (f : FieldGen) : Bool :=
  match f.kind with
  | .oneof _ => true
  | _ => false

/-! ### The field-list filters of `MessageGen` (`message.rs` lines 70–103) -/

/-- `MessageGen::required_fields`: the fields whose kind is
`Singular` with `flag.is_required()`. -/
def required_fields (fields : List FieldGen) : List FieldGen :=
  fields.filter (fun f =>
    match f.kind with
    | .singular flag => flag.is_required
    | _ => false)

/-- `MessageGen::message_fields`: the fields with `proto_type ==
TYPE_MESSAGE`. -/
def message_fields (fields : List FieldGen) : List FieldGen :=
  fields.filter (fun f => f.proto_type = PType.messageT)

/-- `MessageGen::fields_except_oneof`. -/
def fields_except_oneof (fields : List FieldGen) : List FieldGen :=
  fields.filter (fun f => !f.is_oneof)

/-- `MessageGen::fields_except_group`. -/
def fields_except_group (fields : List FieldGen) : List FieldGen :=
  fields.filter (fun f => f.proto_type ≠ PType.groupT)

/-- `MessageGen::fields_except_oneof_and_group`. -/
def fields_except_oneof_and_group (fields : List FieldGen) : List FieldGen :=
  fields.filter (fun f => !f.is_oneof && f.proto_type ≠ PType.groupT)

/-- Modelled from the spec: `OneofGen::variants_except_group` (in
`oneof.rs`, outside the verified sources) — §4.3: the oneof sum type has
"one variant per non-group member"; the encode/size match at `message.rs`
line 115 iterates exactly these variants. -/
def variants_except_group (members : List FieldGen) : List FieldGen :=
  members.filter (fun f => f.proto_type ≠ PType.groupT)

/-! ## Runtime values of generated messages

The generated struct stores the non-oneof fields, one `Option` slot per
oneof (the active variant), the unknown-field bag and the cached-size slot
(`message.rs` `write_struct`, lines 463–523). -/

/-- One entry of the unknown-field bag: the raw wire payload captured
verbatim (modelled from the spec: `UnknownFields` live in the runtime crate,
outside the verified sources; §3 "opaque storage for wire data belonging to
field numbers not recognized by this schema version"). -/
inductive UVal where
  | varintU (n : Nat)
  | fixed64U (n : Nat)
  | fixed32U (n : Nat)
  | lengthDelimitedU (bs : List Nat)
  | groupU (raw : List Nat)
deriving DecidableEq, Repr

/-- Wire type of an unknown-field payload. -/
def UVal.wireType : UVal → WireType
  | .varintU _ => .varint
  | .fixed64U _ => .fixed64
  | .fixed32U _ => .fixed32
  | .lengthDelimitedU _ => .lengthDelimited
  | .groupU _ => .startGroup

/-- Modelled from the spec: re-encoding of one unknown-field entry — tag
followed by the verbatim raw payload (§3: "preserved verbatim through
decode→encode round-trips").  A captured group is framed by its start and
end tags. -/
def unknownItemEncode (num : Nat) : UVal → List Nat
  | .varintU n => varintEncode (makeTag num .varint) ++ varintEncode n
  | .fixed64U n => varintEncode (makeTag num .fixed64) ++ fixed64Encode n
  | .fixed32U n => varintEncode (makeTag num .fixed32) ++ fixed32Encode n
  | .lengthDelimitedU bs =>
      varintEncode (makeTag num .lengthDelimited) ++ varintEncode bs.length ++ bs
  | .groupU raw =>
      varintEncode (makeTag num .startGroup) ++ raw ++ varintEncode (makeTag num .endGroup)

/-- Modelled from the spec: `rt::unknown_fields_size` — the byte length
needed to re-encode the unknown-field bag verbatim (§4.5). -/
def unknownItemSize (num : Nat) : UVal → Nat
  | .varintU n => varintSize (makeTag num .varint) + varintSize n
  | .fixed64U _ => varintSize (makeTag num .fixed64) + 8
  | .fixed32U _ => varintSize (makeTag num .fixed32) + 4
  | .lengthDelimitedU bs =>
      varintSize (makeTag num .lengthDelimited) + varintSize bs.length + bs.length
  | .groupU raw =>
      varintSize (makeTag num .startGroup) + raw.length + varintSize (makeTag num .endGroup)

/-- Re-encoding of the whole unknown-field bag, in bag order
(`os.write_unknown_fields(self.get_unknown_fields())`). -/
def unknownEncode : List (Nat × UVal) → List Nat
  | [] => []
  | (num, u) :: rest => unknownItemEncode num u ++ unknownEncode rest

/-- Total size of the unknown-field bag
(`rt::unknown_fields_size(self.get_unknown_fields())`). -/
def unknownFieldsSize : List (Nat × UVal) → Nat
  | [] => 0
  | (num, u) :: rest => unknownItemSize num u + unknownFieldsSize rest

theorem unknownItemEncode_length (num : Nat) (u : UVal) :
    (unknownItemEncode num u).length = unknownItemSize num u := by
  cases u <;>
    simp [unknownItemEncode, unknownItemSize, varintEncode_length,
      fixed64Encode_length, fixed32Encode_length] <;> omega

theorem unknownEncode_length (us : List (Nat × UVal)) :
    (unknownEncode us).length = unknownFieldsSize us := by
  induction us with
  | nil => rfl
  | cons hd tl ih =>
    obtain ⟨num, u⟩ := hd
    simp [unknownEncode, unknownFieldsSize, unknownItemEncode_length, ih]

/-- A runtime field value.  Scalars carry their wire payload; `subV` is an
embedded message value: its non-oneof field slots (each slot pairs the
field's `FieldGen` with the list of stored values — empty for an absent
presence-tracked singular, a singleton for a present singular, the element
list for repeated/map fields), its oneof slots (the active variant, if any),
its unknown-field bag, and its cached-size slot. -/
inductive Val where
  | varintV (n : Nat)
  | fixed64V (n : Nat)
  | fixed32V (n : Nat)
  | bytesV (bs : List Nat)
  | subV (regular : List (FieldGen × List Val))
         (oneofs : List (Option (FieldGen × Val)))
         (unknown : List (Nat × UVal))
         (cached : Nat)

/-- Wire type of a stored value's payload. -/
def Val.wireType : Val → WireType
  | .varintV _ => .varint
  | .fixed64V _ => .fixed64
  | .fixed32V _ => .fixed32
  | .bytesV _ => .lengthDelimited
  | .subV _ _ _ _ => .lengthDelimited

/-- Modelled from the spec: whether a value is its type's implicit default
(zero / empty), the elision test for a singular field without a presence
flag (§4.6: "it is Singular-with-implicit-default and holds the default
value").  Message values are always presence-tracked, so `subV` never meets
this test. -/
def Val.isDefault : Val → Bool
  | .varintV n => n = 0
  | .fixed64V n => n = 0
  | .fixed32V n => n = 0
  | .bytesV bs => bs.isEmpty
  | .subV _ _ _ _ => false

/-! ## The size pass of the generated code (`write_compute_size`,
`message.rs` lines 170–193, with the per-field contributions modelled from
the spec §4.5 since `field.rs` is outside the verified sources). -/

theorem list_sizeOf_pos {α : Type _} [SizeOf α] (l : List α) : 0 < sizeOf l := by
  cases l <;> simp <;> omega

mutual

/-- Size contribution of one stored value's payload.  Length-delimited
payloads (bytes, embedded messages) include their length prefix; an
embedded message is sized by recursively sizing its body first (§4.5
"pre-order: children before the length-delimiting parent"). -/
def valSize : Val → Nat
  | .varintV n => varintSize n
  | .fixed64V _ => 8
  | .fixed32V _ => 4
  | .bytesV bs => varintSize bs.length + bs.length
  | .subV r o u _ => varintSize (bodySize r o u) + bodySize r o u
  termination_by v => sizeOf v
  decreasing_by
    simp_wf
    rename_i r o u c
    have hu := list_sizeOf_pos u
    omega

/-- Size of a list of repeated elements, each emitted as tag + payload. -/
def repSize (num : Nat) : List Val → Nat
  | [] => 0
  | v :: vs => (varintSize (makeTag num v.wireType) + valSize v) + repSize num vs
  termination_by vs => sizeOf vs
  decreasing_by all_goals (simp_wf <;> omega)

/-- Modelled from the spec: the per-field size contribution emitted by
`FieldGen::write_message_compute_field_size` (§4.5: "0 if the field is
absent/default-and-elidable").  A presence-tracked singular contributes only
when present; a singular without presence flag elides its type's default;
repeated and map fields contribute each element. -/
def slotSize (num : Nat) : FieldKind → List Val → Nat
  | .singular (.withFlag _), [] => 0
  | .singular (.withFlag _), v :: _ => varintSize (makeTag num v.wireType) + valSize v
  | .singular .withoutFlag, [] => 0
  | .singular .withoutFlag, v :: _ =>
      if v.isDefault then 0 else varintSize (makeTag num v.wireType) + valSize v
  | .repeated, vs => repSize num vs
  | .map, vs => repSize num vs
  | .oneof _, _ => 0
  termination_by _ vs => sizeOf vs + 1
  decreasing_by all_goals (simp_wf <;> omega)

/-- The loop `for field in self.fields_except_oneof_and_group() { field
size }` (`message.rs` line 180): group-typed slots are skipped, all other
slots contribute in declaration order. -/
def regularSize : List (FieldGen × List Val) → Nat
  | [] => 0
  | (fg, vs) :: rest =>
      (if fg.proto_type = PType.groupT then 0 else slotSize fg.number fg.kind vs) + regularSize rest
  termination_by l => sizeOf l
  decreasing_by all_goals (simp_wf <;> omega)

/-- The oneof part of the size pass (`write_match_each_oneof_variant`,
`message.rs` lines 105–130 applied at line 183): per oneof, an unset oneof
contributes 0; an active variant is matched against the arms for
`variants_except_group` and its element size added unconditionally. -/
def oneofsSize : List (Option (FieldGen × Val)) → Nat
  | [] => 0
  | none :: rest => oneofsSize rest
  | some (fg, v) :: rest =>
      (if fg.proto_type = PType.groupT then 0
       else varintSize (makeTag fg.number v.wireType) + valSize v) + oneofsSize rest
  termination_by l => sizeOf l
  decreasing_by all_goals (simp_wf <;> omega)

/-- Body size of a message: non-oneof non-group fields, then active oneof
variants, then the unknown-field bag (`my_size` accumulated at `message.rs`
lines 179–189). -/
def bodySize (r : List (FieldGen × List Val)) (o : List (Option (FieldGen × Val)))
    (u : List (Nat × UVal)) : Nat :=
  regularSize r + oneofsSize o + unknownFieldsSize u
  termination_by sizeOf r + sizeOf o + 1
  decreasing_by all_goals (simp_wf <;> omega)

end

/-! ## The encode pass of the generated code
(`write_write_to_with_cached_sizes`, `message.rs` lines 132–149, with the
per-field element writes modelled from the spec §4.6 since `field.rs` is
outside the verified sources). -/

mutual

/-- Byte string of one stored value's payload.  An embedded message is
written as its body-size varint (the size just computed by the size pass —
§4.6 "Encoding must use the cached size previously computed") followed by
its encoded body. -/
def valEncode : Val → List Nat
  | .varintV n => varintEncode n
  | .fixed64V n => fixed64Encode n
  | .fixed32V n => fixed32Encode n
  | .bytesV bs => varintEncode bs.length ++ bs
  | .subV r o u _ => varintEncode (bodySize r o u) ++ bodyEncode r o u
  termination_by v => sizeOf v
  decreasing_by
    simp_wf
    rename_i r o u c
    have hu := list_sizeOf_pos u
    omega

/-- Encoding of a list of repeated elements, each as tag + payload. -/
def repEncode (num : Nat) : List Val → List Nat
  | [] => []
  | v :: vs =>
      (varintEncode (makeTag num v.wireType) ++ valEncode v) ++ repEncode num vs
  termination_by vs => sizeOf vs
  decreasing_by all_goals (simp_wf <;> omega)

/-- Modelled from the spec: the bytes emitted for one non-oneof field by
`FieldGen::write_message_write_field` (§4.6: "A field elides emission
entirely when: it is Singular-with-implicit-default and holds the default
value, or it is Repeated/Map and empty"). -/
def slotEncode (num : Nat) : FieldKind → List Val → List Nat
  | .singular (.withFlag _), [] => []
  | .singular (.withFlag _), v :: _ => varintEncode (makeTag num v.wireType) ++ valEncode v
  | .singular .withoutFlag, [] => []
  | .singular .withoutFlag, v :: _ =>
      if v.isDefault then []
      else varintEncode (makeTag num v.wireType) ++ valEncode v
  | .repeated, vs => repEncode num vs
  | .map, vs => repEncode num vs
  | .oneof _, _ => []
  termination_by _ vs => sizeOf vs + 1
  decreasing_by all_goals (simp_wf <;> omega)

/-- The loop `for f in self.fields_except_oneof_and_group() {
f.write_message_write_field }` (`message.rs` line 140): group-typed slots
emit nothing, all other slots emit in declaration order. -/
def regularEncode : List (FieldGen × List Val) → List Nat
  | [] => []
  | (fg, vs) :: rest =>
      (if fg.proto_type = PType.groupT then [] else slotEncode fg.number fg.kind vs) ++ regularEncode rest
  termination_by l => sizeOf l
  decreasing_by all_goals (simp_wf <;> omega)

/-- The oneof part of the encode pass (`write_match_each_oneof_variant`
applied at `message.rs` line 143): per oneof, nothing when no variant is
set; an active variant matching an arm of `variants_except_group` is
written unconditionally — there is no default-value test. -/
def oneofsEncode : List (Option (FieldGen × Val)) → List Nat
  | [] => []
  | none :: rest => oneofsEncode rest
  | some (fg, v) :: rest =>
      (if fg.proto_type = PType.groupT then []
       else varintEncode (makeTag fg.number v.wireType) ++ valEncode v) ++ oneofsEncode rest
  termination_by l => sizeOf l
  decreasing_by all_goals (simp_wf <;> omega)

/-- Encoded body of a message: non-oneof non-group fields in declaration
order, then active oneof variants in oneof declaration order, then the
unknown-field bag (`message.rs` lines 140–146). -/
def bodyEncode (r : List (FieldGen × List Val)) (o : List (Option (FieldGen × Val)))
    (u : List (Nat × UVal)) : List Nat :=
  regularEncode r ++ oneofsEncode o ++ unknownEncode u
  termination_by sizeOf r + sizeOf o + 1
  decreasing_by all_goals (simp_wf <;> omega)

end

/-! ## Size/encode agreement, level by level -/

mutual

/-- The payload bytes of a value have exactly the length the size pass
computes for it. -/
theorem valEncode_length : ∀ v : Val, (valEncode v).length = valSize v
  | .varintV n => by simp [valEncode, valSize, varintEncode_length]
  | .fixed64V n => by simp [valEncode, valSize, fixed64Encode_length]
  | .fixed32V n => by simp [valEncode, valSize, fixed32Encode_length]
  | .bytesV bs => by simp [valEncode, valSize, varintEncode_length]
  | .subV r o u c => by
      have hb := bodyEncode_length r o u
      simp [valEncode, valSize, varintEncode_length, hb]
  termination_by v => sizeOf v
  decreasing_by
    simp_wf
    have hu := list_sizeOf_pos u
    omega

theorem repEncode_length : ∀ (num : Nat) (vs : List Val),
    (repEncode num vs).length = repSize num vs
  | _, [] => by simp [repEncode, repSize]
  | num, v :: vs => by
      have h1 := valEncode_length v
      have h2 := repEncode_length num vs
      simp [repEncode, repSize, varintEncode_length, h1, h2]
      omega
  termination_by _ vs => sizeOf vs
  decreasing_by all_goals (simp_wf <;> omega)

theorem slotEncode_length : ∀ (num : Nat) (k : FieldKind) (vs : List Val),
    (slotEncode num k vs).length = slotSize num k vs
  | num, .singular (.withFlag req), [] => by simp [slotEncode, slotSize]
  | num, .singular (.withFlag req), v :: tl => by
      have h := valEncode_length v
      simp [slotEncode, slotSize, varintEncode_length, h]
  | num, .singular .withoutFlag, [] => by simp [slotEncode, slotSize]
  | num, .singular .withoutFlag, v :: tl => by
      have h := valEncode_length v
      by_cases hd : v.isDefault <;>
        simp [slotEncode, slotSize, hd, varintEncode_length, h]
  | num, .repeated, vs => by
      have h := repEncode_length num vs
      simpa [slotEncode, slotSize] using h
  | num, .map, vs => by
      have h := repEncode_length num vs
      simpa [slotEncode, slotSize] using h
  | num, .oneof idx, vs => by simp [slotEncode, slotSize]
  termination_by _ _ vs => sizeOf vs + 1
  decreasing_by all_goals (simp_wf <;> omega)

theorem regularEncode_length : ∀ r : List (FieldGen × List Val),
    (regularEncode r).length = regularSize r
  | [] => by simp [regularEncode, regularSize]
  | (fg, vs) :: rest => by
      have h1 := slotEncode_length fg.number fg.kind vs
      have h2 := regularEncode_length rest
      by_cases hg : fg.proto_type = PType.groupT <;>
        simp [regularEncode, regularSize, hg, h1, h2]
  termination_by r => sizeOf r
  decreasing_by all_goals (simp_wf <;> omega)

theorem oneofsEncode_length : ∀ o : List (Option (FieldGen × Val)),
    (oneofsEncode o).length = oneofsSize o
  | [] => by simp [oneofsEncode, oneofsSize]
  | none :: rest => by
      have h := oneofsEncode_length rest
      simp [oneofsEncode, oneofsSize, h]
  | some (fg, v) :: rest => by
      have h1 := valEncode_length v
      have h2 := oneofsEncode_length rest
      by_cases hg : fg.proto_type = PType.groupT <;>
        simp [oneofsEncode, oneofsSize, hg, varintEncode_length, h1, h2] <;> omega
  termination_by o => sizeOf o
  decreasing_by all_goals (simp_wf <;> omega)

theorem bodyEncode_length : ∀ (r : List (FieldGen × List Val))
    (o : List (Option (FieldGen × Val))) (u : List (Nat × UVal)),
    (bodyEncode r o u).length = bodySize r o u
  | r, o, u => by
      have h1 := regularEncode_length r
      have h2 := oneofsEncode_length o
      simp [bodyEncode, bodySize, h1, h2, unknownEncode_length]
      omega
  termination_by r o _ => sizeOf r + sizeOf o + 1
  decreasing_by all_goals (simp_wf <;> omega)

end

/-! ## Whole-message state and the generated `Message` methods -/

/-- The runtime state of a generated message struct: non-oneof field slots,
one active-variant slot per oneof, the unknown-field bag, and the
cached-size slot (`write_struct`, `message.rs` lines 463–523). -/
structure Msg where
  regular : List (FieldGen × List Val)
  oneofs : List (Option (FieldGen × Val))
  unknown : List (Nat × UVal)
  cachedSize : Nat

/-- The generated `compute_size` (`write_compute_size`, `message.rs` lines
170–193): accumulate `my_size` over the non-oneof non-group fields, the
active oneof variants and the unknown-field bag, store it into the
cached-size slot (`self.cached_size.set(my_size)`), and return it.  The
mutation of the cached-size cell is modelled by returning the updated
message next to the result. -/
def compute_size (m : Msg) : Nat × Msg :=
  let my_size := bodySize m.regular m.oneofs m.unknown
  (my_size, { m with cachedSize := my_size })

/-- The generated `get_cached_size` (`message.rs` lines 151–155):
`self.cached_size.get()`. -/
def get_cached_size (m : Msg) : Nat :=
  m.cachedSize

/-- The field-writing loop of the generated `write_to_with_cached_sizes`
(`message.rs` line 140), as sequential writes to the output stream `os`:
each non-oneof field of `fields_except_oneof_and_group` appends its bytes
in declaration order (group slots are not in the loop and append nothing). -/
def writeRegular (os : List Nat) : List (FieldGen × List Val) → List Nat
  | [] => os
  | (fg, vs) :: rest =>
      writeRegular
        (os ++ (if fg.proto_type = PType.groupT then [] else slotEncode fg.number fg.kind vs))
        rest

/-- The oneof-writing part of the generated `write_to_with_cached_sizes`
(`write_match_each_oneof_variant` applied at `message.rs` line 143): per
oneof, an unset oneof appends nothing; an active variant matching an arm of
`variants_except_group` appends its tag and payload unconditionally. -/
def writeOneofs (os : List Nat) : List (Option (FieldGen × Val)) → List Nat
  | [] => os
  | none :: rest => writeOneofs os rest
  | some (fg, v) :: rest =>
      writeOneofs
        (os ++ (if fg.proto_type = PType.groupT then []
                else varintEncode (makeTag fg.number v.wireType) ++ valEncode v))
        rest

/-- The generated `write_to_with_cached_sizes` (`message.rs` lines 132–149):
write the non-oneof non-group fields, then the active oneof variants, then
the unknown-field bag (`os.write_unknown_fields(...)`). -/
def write_to_with_cached_sizes (m : Msg) (os : List Nat) : List Nat :=
  writeOneofs (writeRegular os m.regular) m.oneofs ++ unknownEncode m.unknown

theorem writeRegular_eq (r : List (FieldGen × List Val)) :
    ∀ os, writeRegular os r = os ++ regularEncode r := by
  induction r with
  | nil => intro os; simp [writeRegular, regularEncode]
  | cons hd tl ih =>
    intro os
    obtain ⟨fg, vs⟩ := hd
    rw [writeRegular, regularEncode, ih]
    simp

theorem writeOneofs_eq (o : List (Option (FieldGen × Val))) :
    ∀ os, writeOneofs os o = os ++ oneofsEncode o := by
  induction o with
  | nil => intro os; simp [writeOneofs, oneofsEncode]
  | cons hd tl ih =>
    intro os
    cases hd with
    | none => rw [writeOneofs, oneofsEncode, ih]
    | some p =>
      obtain ⟨fg, v⟩ := p
      rw [writeOneofs, oneofsEncode, ih]
      simp

/-- The accumulated regular-field size is the sum of the per-field
contributions of the non-group slots, in declaration order. -/
theorem regularSize_eq_sum (r : List (FieldGen × List Val)) :
    regularSize r =
      ((r.filter (fun s => s.1.proto_type ≠ PType.groupT)).map
        (fun s => slotSize s.1.number s.1.kind s.2)).sum := by
  induction r with
  | nil => simp [regularSize]
  | cons hd tl ih =>
    obtain ⟨fg, vs⟩ := hd
    by_cases hg : fg.proto_type = PType.groupT <;>
      simp [regularSize, List.filter_cons, hg, ih]

/-- The accumulated oneof size is the sum over the oneofs of the active
variant's contribution, an unset oneof contributing `0`. -/
theorem oneofsSize_eq_sum (o : List (Option (FieldGen × Val))) :
    oneofsSize o =
      (o.map (fun slot =>
        match slot with
        | none => 0
        | some (fg, v) =>
            if fg.proto_type = PType.groupT then 0
            else varintSize (makeTag fg.number v.wireType) + valSize v)).sum := by
  induction o with
  | nil => simp [oneofsSize]
  | cons hd tl ih =>
    cases hd with
    | none => simp [oneofsSize, ih]
    | some p =>
      obtain ⟨fg, v⟩ := p
      simp [oneofsSize, ih]

/-! ## Claim theorems: size/encode -/

/-- C1: the generated size pass and the generated encode pass traverse the
same fields in the same order — non-oneof non-group fields, then active
oneof variants, then the unknown-field bag — so the byte length of the
encoding of any message value equals the size computed for it immediately
before encoding. -/
theorem size_encode_consistency (m : Msg) :
    (write_to_with_cached_sizes m []).length = (compute_size m).1 := by
  simp [write_to_with_cached_sizes, compute_size, writeRegular_eq, writeOneofs_eq,
    bodySize, regularEncode_length, oneofsEncode_length, unknownEncode_length]
  omega

/-- C2: the generated size computation returns the sum of each non-oneof
field's contribution, plus the active oneof variants' contributions (`0`
for a oneof with no variant set), plus the re-encoding length of the
unknown-field bag; it writes that exact total into the cached-size slot, so
`get_cached_size` immediately after a size pass returns the value the size
pass returned. -/
theorem compute_size_total_and_cached (m : Msg) :
    (compute_size m).1 =
      ((m.regular.filter (fun s => s.1.proto_type ≠ PType.groupT)).map
        (fun s => slotSize s.1.number s.1.kind s.2)).sum
      + (m.oneofs.map (fun slot =>
          match slot with
          | none => 0
          | some (fg, v) =>
              if fg.proto_type = PType.groupT then 0
              else varintSize (makeTag fg.number v.wireType) + valSize v)).sum
      + unknownFieldsSize m.unknown
    ∧ get_cached_size (compute_size m).2 = (compute_size m).1 := by
  constructor
  · simp [compute_size, bodySize, regularSize_eq_sum, oneofsSize_eq_sum]
  · simp [compute_size, get_cached_size]

/-- C3: the generated encode emits, in a fixed deterministic order, the
non-oneof fields in declaration order, then each oneof's active variant in
oneof declaration order, then the unknown-field bag; and an active oneof
variant (necessarily a non-group member) is emitted unconditionally — its
tag and payload are appended with no default-value test, and the emitted
bytes are never empty, even when the variant holds its type's zero
value. -/
theorem encode_order_and_oneof_unconditional (m : Msg) :
    write_to_with_cached_sizes m [] =
      regularEncode m.regular ++ oneofsEncode m.oneofs ++ unknownEncode m.unknown
    ∧ ∀ (fg : FieldGen) (v : Val) (rest : List (Option (FieldGen × Val))),
        fg.proto_type ≠ PType.groupT →
          oneofsEncode (some (fg, v) :: rest) =
            (varintEncode (makeTag fg.number v.wireType) ++ valEncode v) ++ oneofsEncode rest
          ∧ varintEncode (makeTag fg.number v.wireType) ++ valEncode v ≠ [] := by
  refine ⟨?_, ?_⟩
  · simp [write_to_with_cached_sizes, writeRegular_eq, writeOneofs_eq]
  · intro fg v rest hg
    refine ⟨by simp [oneofsEncode, hg], ?_⟩
    intro hnil
    have := varintEncode_ne_nil (makeTag fg.number v.wireType)
    simp_all

/-- Witness for C3: a oneof variant holding the zero value of `int32`
(`varintV 0`, `v.isDefault = true`) is still emitted — one tag byte and one
payload byte. -/
theorem encode_order_and_oneof_unconditional_witness :
    (FieldGen.mk 1 PType.int32T (FieldKind.oneof 0)).proto_type ≠ PType.groupT
    ∧ oneofsEncode [some (FieldGen.mk 1 PType.int32T (FieldKind.oneof 0), Val.varintV 0)] =
        (varintEncode (makeTag 1 (Val.varintV 0).wireType) ++ valEncode (Val.varintV 0))
          ++ oneofsEncode []
    ∧ varintEncode (makeTag 1 (Val.varintV 0).wireType) ++ valEncode (Val.varintV 0) ≠ [] := by
  have h := (encode_order_and_oneof_unconditional ⟨[], [], [], 0⟩).2
    (FieldGen.mk 1 PType.int32T (FieldKind.oneof 0)) (Val.varintV 0) [] (by simp)
  exact ⟨by simp, h.1, h.2⟩

/-! ## The decode loop of the generated code (`write_merge_from`,
`message.rs` lines 232–255) -/

/-- Payload of one non-group wire record, as read by the Wire Runtime. -/
inductive ScalarW where
  | varintW (n : Nat)
  | fixed64W (n : Nat)
  | fixed32W (n : Nat)
  | lengthDelimitedW (bs : List Nat)
deriving DecidableEq, Repr

/-- The unknown-bag capture of a scalar wire payload. -/
def ScalarW.toUVal : ScalarW → UVal
  | .varintW n => .varintU n
  | .fixed64W n => .fixed64U n
  | .fixed32W n => .fixed32U n
  | .lengthDelimitedW bs => .lengthDelimitedU bs

/-- The stored value a known field obtains from a scalar wire payload. -/
def ScalarW.toVal : ScalarW → Val
  | .varintW n => .varintV n
  | .fixed64W n => .fixed64V n
  | .fixed32W n => .fixed32V n
  | .lengthDelimitedW bs => .bytesV bs

/-- One `(field-number, wire-type)` record of the input, already framed by
the Wire Runtime's tag read (`is.read_tag_unpack()`): either a scalar
payload, or a legacy group (its raw content and whether its end marker was
present in the input). -/
inductive WireRec where
  | scalar (num : Nat) (w : ScalarW)
  | group (num : Nat) (raw : List Nat) (terminated : Bool)
deriving DecidableEq, Repr

/-- The field number read from the record's tag. -/
def WireRec.num : WireRec → Nat
  | .scalar n _ => n
  | .group n _ _ => n

/-- Decode failure of the generated code. -/
inductive DecodeErr where
  | incompleteGroup
deriving DecidableEq, Repr

/-- Appending one captured entry to the unknown-field bag. -/
def addUnknown (m : Msg) (num : Nat) (u : UVal) : Msg :=
  { m with unknown := m.unknown ++ [(num, u)] }

/-- Modelled from the spec: `rt::read_unknown_or_skip_group` (the default
match arm of the decode loop, `message.rs` line 249; the runtime function
is outside the verified sources) — §4.4: "delegate to the unknown-field bag
(verbatim capture of tag + raw payload) rather than failing, *except* the
degenerate case of a legacy group whose end marker is missing, which is a
hard decode failure". -/
def read_unknown_or_skip_group (num : Nat) (r : WireRec) (m : Msg) :
    Except DecodeErr Msg :=
  match r with
  | .scalar _ w => .ok (addUnknown m num w.toUVal)
  | .group _ raw true => .ok (addUnknown m num (.groupU raw))
  | .group _ _ false => .error .incompleteGroup

/-- Replacing or appending a stored value in the slot with the given field
number (singular last-one-wins, repeated/map append). -/
def updateSlot : List (FieldGen × List Val) → Nat → FieldKind → Val →
    List (FieldGen × List Val)
  | [], _, _, _ => []
  | (g, vs) :: rest, num, k, v =>
      if g.number = num then
        (g, match k with
            | .repeated => vs ++ [v]
            | .map => vs ++ [v]
            | _ => [v]) :: rest
      else (g, vs) :: updateSlot rest num k v

/-- Installing a value as the active variant of the oneof with the given
index, displacing any previously active sibling. -/
def setOneofSlot : List (Option (FieldGen × Val)) → Nat → FieldGen → Val →
    List (Option (FieldGen × Val))
  | [], _, _, _ => []
  | _ :: rest, 0, fg, v => some (fg, v) :: rest
  | s :: rest, i + 1, fg, v => s :: setOneofSlot rest i fg v

/-- Modelled from the spec: the per-field merge emitted by
`FieldGen::write_merge_from_field` (§4.4; `field.rs` is outside the
verified sources): a known singular field stores the value replacing any
previous one, repeated/map append, and a oneof member becomes its oneof's
active variant. -/
def mergeKnownField (f : FieldGen) (v : Val) (m : Msg) : Msg :=
  match f.kind with
  | .oneof idx => { m with oneofs := setOneofSlot m.oneofs idx f v }
  | k => { m with regular := updateSlot m.regular f.number k v }

/-- The generated `merge_from` (`message.rs` lines 232–255): loop while the
input has remaining records; each iteration reads one `(field-number,
wire-type)` pair and matches the field number against one arm per field of
`fields_except_group`; a scalar on a known number merges into that field,
any other record falls to the default arm
(`rt::read_unknown_or_skip_group`).  (A group record on a known non-group
number is a stored-wire-type mismatch; per §4.4 it is delegated to the
unknown-field handler as well.) -/
def merge_from (fields : List FieldGen) (m : Msg) :
    List WireRec → Except DecodeErr Msg
  | [] => .ok m
  | r :: rest =>
      match (fields_except_group fields).find? (fun f => f.number = r.num) with
      | some f =>
          match r with
          | .scalar _ w => merge_from fields (mergeKnownField f w.toVal m) rest
          | .group _ _ _ =>
              match read_unknown_or_skip_group r.num r m with
              | .ok m₂ => merge_from fields m₂ rest
              | .error e => .error e
      | none =>
          match read_unknown_or_skip_group r.num r m with
          | .ok m₂ => merge_from fields m₂ rest
          | .error e => .error e

/-- C4: the generated decode loop terminates successfully on exhausted
input; and a record whose field number matches no recognized field of the
message is delegated to the unknown-field handler — scalars and terminated
groups are captured verbatim into the unknown-field bag and decoding
continues, while a legacy group whose end marker is missing is a hard
decode failure. -/
theorem merge_from_unknown_field_dispatch (fields : List FieldGen) (m : Msg) :
    merge_from fields m [] = Except.ok m
    ∧ ∀ (num : Nat) (rest : List WireRec),
        (∀ f ∈ fields_except_group fields, f.number ≠ num) →
          (∀ w : ScalarW,
            merge_from fields m (WireRec.scalar num w :: rest) =
              merge_from fields (addUnknown m num w.toUVal) rest)
          ∧ (∀ raw : List Nat,
            merge_from fields m (WireRec.group num raw true :: rest) =
              merge_from fields (addUnknown m num (UVal.groupU raw)) rest)
          ∧ (∀ raw : List Nat,
            merge_from fields m (WireRec.group num raw false :: rest) =
              Except.error DecodeErr.incompleteGroup) := by
  refine ⟨rfl, ?_⟩
  intro num rest hnone
  have hfind : ∀ (r : WireRec), r.num = num →
      (fields_except_group fields).find? (fun f => f.number = r.num) = none := by
    intro r hr
    apply List.find?_eq_none.mpr
    intro f hf
    simp [hr, hnone f hf]
  refine ⟨?_, ?_, ?_⟩
  · intro w
    rw [merge_from, hfind (WireRec.scalar num w) rfl]
    simp [read_unknown_or_skip_group, WireRec.num]
  · intro raw
    rw [merge_from, hfind (WireRec.group num raw true) rfl]
    simp [read_unknown_or_skip_group, WireRec.num]
  · intro raw
    rw [merge_from, hfind (WireRec.group num raw false) rfl]
    simp [read_unknown_or_skip_group, WireRec.num]

/-- Witness for C4: a message recognizing only field number 1 delegates a
varint record numbered 2 to the unknown-field bag, and fails on an
unterminated group numbered 2. -/
theorem merge_from_unknown_field_dispatch_witness :
    (∀ f ∈ fields_except_group [FieldGen.mk 1 PType.int32T (FieldKind.singular .withoutFlag)],
        f.number ≠ 2)
    ∧ merge_from [FieldGen.mk 1 PType.int32T (FieldKind.singular .withoutFlag)]
        ⟨[(FieldGen.mk 1 PType.int32T (FieldKind.singular .withoutFlag), [Val.varintV 0])], [], [], 0⟩
        [WireRec.scalar 2 (ScalarW.varintW 7)] =
      merge_from [FieldGen.mk 1 PType.int32T (FieldKind.singular .withoutFlag)]
        (addUnknown
          ⟨[(FieldGen.mk 1 PType.int32T (FieldKind.singular .withoutFlag), [Val.varintV 0])], [], [], 0⟩
          2 (ScalarW.varintW 7).toUVal) []
    ∧ merge_from [FieldGen.mk 1 PType.int32T (FieldKind.singular .withoutFlag)]
        ⟨[(FieldGen.mk 1 PType.int32T (FieldKind.singular .withoutFlag), [Val.varintV 0])], [], [], 0⟩
        [WireRec.group 2 [8, 1] false] =
      Except.error DecodeErr.incompleteGroup := by
  have hmem : ∀ f ∈ fields_except_group
      [FieldGen.mk 1 PType.int32T (FieldKind.singular .withoutFlag)], f.number ≠ 2 := by
    intro f hf
    simp [fields_except_group] at hf
    simp [hf]
  have h := (merge_from_unknown_field_dispatch
    [FieldGen.mk 1 PType.int32T (FieldKind.singular .withoutFlag)]
    ⟨[(FieldGen.mk 1 PType.int32T (FieldKind.singular .withoutFlag), [Val.varintV 0])], [], [], 0⟩).2
    2 [] hmem
  exact ⟨hmem, h.1 (ScalarW.varintW 7), h.2.2 [8, 1]⟩

/-! ## The validity check of the generated code (`write_is_initialized`,
`message.rs` lines 319–346) -/

/-- The first loop of the generated `is_initialized`: for every field of
`required_fields`, `if self.field.is_none() { return false }` — a required
(hence presence-tracked singular) slot must hold a value.  Non-required
slots impose nothing. -/
def requiredOk : List (FieldGen × List Val) → Bool
  | [] => true
  | (fg, vs) :: rest =>
      (match fg.kind with
       | .singular flag => if flag.is_required then !vs.isEmpty else true
       | _ => true) && requiredOk rest

mutual

/-- `v.is_initialized()` on a stored value: an embedded message runs its own
generated check (required fields first, then message-typed fields);
non-message payloads are trivially valid. -/
def valInitialized : Val → Bool
  | .subV r o _ _ => requiredOk r && (msgSlotsOk r && oneofSlotsOk o)
  | _ => true
  termination_by v => sizeOf v
  decreasing_by all_goals (simp_wf <;> omega)

def valsInitialized : List Val → Bool
  | [] => true
  | v :: vs => valInitialized v && valsInitialized vs
  termination_by vs => sizeOf vs
  decreasing_by all_goals (simp_wf <;> omega)

/-- The second loop of the generated `is_initialized` over the regular
slots of `message_fields` (`proto_type == TYPE_MESSAGE`), skipping
map-kind fields (`if let FieldKind::Map(..) = f.kind { continue }`): every
stored value must itself be initialized. -/
def msgSlotsOk : List (FieldGen × List Val) → Bool
  | [] => true
  | (fg, vs) :: rest =>
      (if fg.proto_type = PType.messageT ∧ fg.kind ≠ FieldKind.map
       then valsInitialized vs else true) && msgSlotsOk rest
  termination_by l => sizeOf l
  decreasing_by all_goals (simp_wf <;> omega)

/-- The second loop of the generated `is_initialized` over oneof members
(`message_fields` includes oneof members; `write_for_self_field` on a oneof
member visits the active variant): a message-typed active variant must
itself be initialized. -/
def oneofSlotsOk : List (Option (FieldGen × Val)) → Bool
  | [] => true
  | none :: rest => oneofSlotsOk rest
  | some (fg, v) :: rest =>
      (if fg.proto_type = PType.messageT then valInitialized v else true)
        && oneofSlotsOk rest
  termination_by l => sizeOf l
  decreasing_by all_goals (simp_wf <;> omega)

end

/-- The generated `is_initialized` (`message.rs` lines 319–346): all
required-field checks run first; only then are the message-typed fields
(regular slots and active oneof variants) recursively checked. -/
def is_initialized (m : Msg) : Bool :=
  requiredOk m.regular && (msgSlotsOk m.regular && oneofSlotsOk m.oneofs)

theorem valsInitialized_iff (vs : List Val) :
    valsInitialized vs = true ↔ ∀ v ∈ vs, valInitialized v = true := by
  induction vs with
  | nil => simp [valsInitialized]
  | cons v tl ih => simp [valsInitialized, ih]

theorem requiredOk_iff (l : List (FieldGen × List Val)) :
    requiredOk l = true ↔
      ∀ p ∈ l, ∀ flag : SingularFlag, p.1.kind = FieldKind.singular flag →
        flag.is_required = true → p.2 ≠ [] := by
  induction l with
  | nil => simp [requiredOk]
  | cons hd tl ih =>
    obtain ⟨fg, vs⟩ := hd
    rw [requiredOk, Bool.and_eq_true, ih]
    constructor
    · rintro ⟨h1, h2⟩ p hp flag hk hr
      rcases List.mem_cons.mp hp with hp | hp
      · subst hp
        simp only at hk
        rw [hk] at h1
        simp only [hr, if_true] at h1
        simpa [List.isEmpty_iff] using h1
      · exact h2 p hp flag hk hr
    · intro h
      refine ⟨?_, fun p hp flag hk hr => h p (List.mem_cons_of_mem _ hp) flag hk hr⟩
      cases hfk : fg.kind with
      | singular flag =>
        cases hfr : flag.is_required
        · simp [hfr]
        · have := h (fg, vs) (List.mem_cons_self _ _) flag hfk hfr
          simpa [hfr, List.isEmpty_iff] using this
      | repeated => simp
      | map => simp
      | oneof idx => simp

theorem msgSlotsOk_iff (l : List (FieldGen × List Val)) :
    msgSlotsOk l = true ↔
      ∀ p ∈ l, p.1.proto_type = PType.messageT → p.1.kind ≠ FieldKind.map →
        ∀ v ∈ p.2, valInitialized v = true := by
  induction l with
  | nil => simp [msgSlotsOk]
  | cons hd tl ih =>
    obtain ⟨fg, vs⟩ := hd
    rw [msgSlotsOk, Bool.and_eq_true, ih]
    constructor
    · rintro ⟨h1, h2⟩ p hp hm hk
      rcases List.mem_cons.mp hp with hp | hp
      · subst hp
        simp only at hm hk
        rw [if_pos ⟨hm, hk⟩] at h1
        exact (valsInitialized_iff vs).mp h1
      · exact h2 p hp hm hk
    · intro h
      refine ⟨?_, fun p hp hm hk => h p (List.mem_cons_of_mem _ hp) hm hk⟩
      by_cases hc : fg.proto_type = PType.messageT ∧ fg.kind ≠ FieldKind.map
      · rw [if_pos hc]
        exact (valsInitialized_iff vs).mpr (h (fg, vs) (List.mem_cons_self _ _) hc.1 hc.2)
      · rw [if_neg hc]

theorem oneofSlotsOk_iff (l : List (Option (FieldGen × Val))) :
    oneofSlotsOk l = true ↔
      ∀ fg v, some (fg, v) ∈ l → fg.proto_type = PType.messageT →
        valInitialized v = true := by
  induction l with
  | nil => simp [oneofSlotsOk]
  | cons hd tl ih =>
    cases hd with
    | none =>
      rw [oneofSlotsOk, ih]
      constructor
      · intro h fg v hmem hm
        rcases List.mem_cons.mp hmem with hmem | hmem
        · exact absurd hmem (by simp)
        · exact h fg v hmem hm
      · intro h fg v hmem hm
        exact h fg v (List.mem_cons_of_mem _ hmem) hm
    | some p =>
      obtain ⟨fg, v⟩ := p
      rw [oneofSlotsOk, Bool.and_eq_true, ih]
      constructor
      · rintro ⟨h1, h2⟩ fg2 v2 hmem hm
        rcases List.mem_cons.mp hmem with hmem | hmem
        · obtain ⟨rfl, rfl⟩ : fg2 = fg ∧ v2 = v := by
            simpa [eq_comm] using hmem
          rw [if_pos hm] at h1
          exact h1
        · exact h2 fg2 v2 hmem hm
      · intro h
        refine ⟨?_, fun fg2 v2 hmem hm => h fg2 v2 (List.mem_cons_of_mem _ hmem) hm⟩
        by_cases hm : fg.proto_type = PType.messageT
        · rw [if_pos hm]
          exact h fg v (List.mem_cons_self _ _) hm
        · rw [if_neg hm]

/-- C5: the generated validity check returns `true` iff every required
field holds a value and every message-typed field that holds a value —
regular slots (map fields excluded from the deep check) and active oneof
variants — is itself recursively valid; and a required-field violation
makes the result `false` no matter what the message-typed fields hold (the
required checks run first and short-circuit). -/
theorem is_initialized_spec (m : Msg) :
    (is_initialized m = true ↔
      (∀ p ∈ m.regular, ∀ flag : SingularFlag, p.1.kind = FieldKind.singular flag →
          flag.is_required = true → p.2 ≠ [])
      ∧ (∀ p ∈ m.regular, p.1.proto_type = PType.messageT → p.1.kind ≠ FieldKind.map →
          ∀ v ∈ p.2, valInitialized v = true)
      ∧ (∀ fg v, some (fg, v) ∈ m.oneofs → fg.proto_type = PType.messageT →
          valInitialized v = true))
    ∧ (requiredOk m.regular = false → is_initialized m = false) := by
  constructor
  · rw [is_initialized, Bool.and_eq_true, Bool.and_eq_true,
      requiredOk_iff, msgSlotsOk_iff, oneofSlotsOk_iff]
  · intro h
    rw [is_initialized, h, Bool.false_and]

/-- Witness for C5: a message whose only field is required and holds no
value is reported uninitialized, via the required-field conjunct. -/
theorem is_initialized_spec_witness :
    requiredOk [(FieldGen.mk 1 PType.int32T (FieldKind.singular (.withFlag true)), ([] : List Val))] = false
    ∧ is_initialized
        ⟨[(FieldGen.mk 1 PType.int32T (FieldKind.singular (.withFlag true)), [])], [], [], 0⟩ = false := by
  have h0 : requiredOk
      [(FieldGen.mk 1 PType.int32T (FieldKind.singular (.withFlag true)), ([] : List Val))] = false := by
    simp [requiredOk, SingularFlag.is_required]
  exact ⟨h0,
    (is_initialized_spec
      ⟨[(FieldGen.mk 1 PType.int32T (FieldKind.singular (.withFlag true)), [])], [], [], 0⟩).2 h0⟩

/-! ## The clear of the generated code (`write_impl_clear`, `message.rs`
lines 445–454) -/

/-- Modelled from the spec: the implicit default ("zero") value of each
wire-format primitive type (§4.2: the storage mapping "is total over the
wire-format primitive type set"). -/
def zeroVal : PType → Val
  | .doubleT => .fixed64V 0
  | .floatT => .fixed32V 0
  | .fixed64T => .fixed64V 0
  | .sfixed64T => .fixed64V 0
  | .fixed32T => .fixed32V 0
  | .sfixed32T => .fixed32V 0
  | .stringT => .bytesV []
  | .bytesT => .bytesV []
  | .messageT => .subV [] [] [] 0
  | .groupT => .subV [] [] [] 0
  | _ => .varintV 0

/-- Modelled from the spec: the reset state `FieldGen::write_clear` emits
for one field (`field.rs` is outside the verified sources): a
presence-tracked singular becomes unset, a singular without presence flag
reverts to its type's zero value, repeated and map fields become empty. -/
def clearData (fg : FieldGen) : List Val :=
  match fg.kind with
  | .singular (.withFlag _) => []
  | .singular .withoutFlag => [zeroVal fg.proto_type]
  | .repeated => []
  | .map => []
  | .oneof _ => []

/-- The generated `clear` (`write_impl_clear`, `message.rs` lines 445–454):
`f.write_clear` for every field of `fields_except_group` (so each non-group
regular slot is reset and every oneof becomes unset), then
`self.unknown_fields.clear()`.  The cached-size slot is not mentioned in
the loop and keeps its value. -/
def clear (m : Msg) : Msg :=
  { regular := m.regular.map (fun s =>
      if s.1.proto_type = PType.groupT then s else (s.1, clearData s.1)),
    oneofs := m.oneofs.map (fun _ => none),
    unknown := [],
    cachedSize := m.cachedSize }

/-- C10: clear resets every non-group field (presence-tracked singulars to
unset, implicit-default singulars to zero, repeated/map to empty, oneofs to
no active variant), empties the unknown-field bag, and leaves the
cached-size slot unchanged; group slots and nothing else are touched. -/
theorem clear_frame (m : Msg) :
    (clear m).unknown = []
    ∧ get_cached_size (clear m) = get_cached_size m
    ∧ ((clear m).oneofs.length = m.oneofs.length ∧ ∀ o ∈ (clear m).oneofs, o = none)
    ∧ (clear m).regular.length = m.regular.length
    ∧ ∀ (i : Nat) (h : i < m.regular.length) (h2 : i < (clear m).regular.length),
        (clear m).regular.get ⟨i, h2⟩ =
          (if (m.regular.get ⟨i, h⟩).1.proto_type = PType.groupT
           then m.regular.get ⟨i, h⟩
           else ((m.regular.get ⟨i, h⟩).1, clearData (m.regular.get ⟨i, h⟩).1)) := by
  refine ⟨rfl, rfl, ⟨by simp [clear], by simp [clear]⟩, by simp [clear], ?_⟩
  intro i h h2
  simp [clear, List.get_eq_getElem, List.getElem_map]

/-- Witness for C10: clearing a concrete message with one implicit-default
`int32` field holding 7, one group slot, an active oneof variant, an
unknown entry and a nonzero cached size. -/
theorem clear_frame_witness :
    (clear ⟨[(FieldGen.mk 1 PType.int32T (FieldKind.singular .withoutFlag), [Val.varintV 7]),
             (FieldGen.mk 2 PType.groupT (FieldKind.singular (.withFlag false)), [Val.varintV 9])],
            [some (FieldGen.mk 3 PType.int32T (FieldKind.oneof 0), Val.varintV 5)],
            [(4, UVal.varintU 1)], 11⟩).unknown = []
    ∧ (clear ⟨[(FieldGen.mk 1 PType.int32T (FieldKind.singular .withoutFlag), [Val.varintV 7]),
             (FieldGen.mk 2 PType.groupT (FieldKind.singular (.withFlag false)), [Val.varintV 9])],
            [some (FieldGen.mk 3 PType.int32T (FieldKind.oneof 0), Val.varintV 5)],
            [(4, UVal.varintU 1)], 11⟩).regular.get ⟨0, by simp [clear]⟩ =
        (FieldGen.mk 1 PType.int32T (FieldKind.singular .withoutFlag),
          clearData (FieldGen.mk 1 PType.int32T (FieldKind.singular .withoutFlag))) := by
  have h := clear_frame
    ⟨[(FieldGen.mk 1 PType.int32T (FieldKind.singular .withoutFlag), [Val.varintV 7]),
      (FieldGen.mk 2 PType.groupT (FieldKind.singular (.withFlag false)), [Val.varintV 9])],
     [some (FieldGen.mk 3 PType.int32T (FieldKind.oneof 0), Val.varintV 5)],
     [(4, UVal.varintU 1)], 11⟩
  refine ⟨h.1, ?_⟩
  have h5 := h.2.2.2.2 0 (by simp) (by simp [clear])
  simpa using h5

/-! ## Group-typed fields across the generated artifacts -/

/-- The field numbers that get a dispatch arm in the generated decode loop
(`for f in &self.fields_except_group()` with `f.proto_field.number()`,
`message.rs` lines 242–247). -/
def merge_arm_numbers (fields : List FieldGen) : List Nat :=
  (fields_except_group fields).map FieldGen.number

/-- The field list pushed into the reflection descriptor
(`write_descriptor_static`, `message.rs` line 294). -/
def descriptor_fields (fields : List FieldGen) : List FieldGen :=
  fields_except_group fields

/-- The field list that receives generated accessors
(`write_field_accessors`, `message.rs` line 196). -/
def accessor_fields (fields : List FieldGen) : List FieldGen :=
  fields_except_group fields

/-- C9: a group-typed field gets no dispatch arm in the decode loop (its
number falls to the default `read_unknown_or_skip_group` arm), is absent
from the encode/size traversal list, from the oneof encode/size match
variants, from the reflection-descriptor field list and from the accessor
set; and at runtime a group slot or group oneof variant contributes neither
bytes nor size. -/
theorem group_field_excluded_everywhere (fields : List FieldGen) (f : FieldGen)
    (hg : f.proto_type = PType.groupT)
    (hnd : (fields.map FieldGen.number).Nodup) (hf : f ∈ fields) :
    f.number ∉ merge_arm_numbers fields
    ∧ f ∉ fields_except_oneof_and_group fields
    ∧ f ∉ variants_except_group fields
    ∧ f ∉ descriptor_fields fields
    ∧ f ∉ accessor_fields fields
    ∧ (∀ (vs : List Val) (rest : List (FieldGen × List Val)),
        regularSize ((f, vs) :: rest) = regularSize rest
        ∧ regularEncode ((f, vs) :: rest) = regularEncode rest)
    ∧ (∀ (v : Val) (rest : List (Option (FieldGen × Val))),
        oneofsSize (some (f, v) :: rest) = oneofsSize rest
        ∧ oneofsEncode (some (f, v) :: rest) = oneofsEncode rest) := by
  have hnotin : f ∉ fields_except_group fields := by
    intro hmem
    have := (List.mem_filter.mp hmem).2
    simp [hg] at this
  refine ⟨?_, ?_, ?_, hnotin, hnotin, ?_, ?_⟩
  · intro hmem
    obtain ⟨g, hgmem, hgnum⟩ := List.mem_map.mp hmem
    have hgfields : g ∈ fields := (List.mem_filter.mp hgmem).1
    have : g = f := List.inj_on_of_nodup_map hnd hgfields hf hgnum
    subst this
    exact hnotin hgmem
  · intro hmem
    have := (List.mem_filter.mp hmem).2
    simp [hg] at this
  · intro hmem
    have := (List.mem_filter.mp hmem).2
    simp [hg] at this
  · intro vs rest
    constructor
    · rw [regularSize]
      simp [hg]
    · rw [regularEncode]
      simp [hg]
  · intro v rest
    constructor
    · rw [oneofsSize]
      simp [hg]
    · rw [oneofsEncode]
      simp [hg]

/-- Witness for C9: in a schema with an `int32` field numbered 1 and a
group field numbered 2, the decode arms are exactly `[1]` and the group
slot contributes nothing to size or encoding. -/
theorem group_field_excluded_everywhere_witness :
    (FieldGen.mk 2 PType.groupT (FieldKind.singular (.withFlag false))).proto_type = PType.groupT
    ∧ ([FieldGen.mk 1 PType.int32T (FieldKind.singular .withoutFlag),
        FieldGen.mk 2 PType.groupT (FieldKind.singular (.withFlag false))].map
          FieldGen.number).Nodup
    ∧ (2 : Nat) ∉ merge_arm_numbers
        [FieldGen.mk 1 PType.int32T (FieldKind.singular .withoutFlag),
         FieldGen.mk 2 PType.groupT (FieldKind.singular (.withFlag false))]
    ∧ regularSize [(FieldGen.mk 2 PType.groupT (FieldKind.singular (.withFlag false)),
        [Val.varintV 9])] = regularSize [] := by
  have h := group_field_excluded_everywhere
    [FieldGen.mk 1 PType.int32T (FieldKind.singular .withoutFlag),
     FieldGen.mk 2 PType.groupT (FieldKind.singular (.withFlag false))]
    (FieldGen.mk 2 PType.groupT (FieldKind.singular (.withFlag false)))
    rfl (by simp [FieldGen.number]) (by simp)
  exact ⟨rfl, by simp [FieldGen.number], h.1, (h.2.2.2.2.2.1 [Val.varintV 9] []).1⟩

/-! ## Customization options (`Customize` lives in `customize.rs`, outside
the verified sources; the option record is modelled from the spec §3
"Effective Customization", and the extension layers file/message/field are
those declared in `protobuf/src/rustproto.rs`). -/

/-- Modelled from the spec: the Effective Customization record (§3) — every
recognized option, each `none` when the layer does not set it. -/
structure Customize where
  expose_oneof : Option Bool
  expose_fields : Option Bool
  generate_accessors : Option Bool
  lite_runtime : Option Bool
  bytes_as_custom_buffer : Option Bool
  string_as_custom_buffer : Option Bool
  serialize_with_external_format : Option Bool
  serialize_format_guard : Option String
deriving DecidableEq, Repr

/-- Modelled from the spec: `Customize::update_with` (§9 "only overwrite
fields the higher-precedence layer explicitly sets") — each option of the
result is the overriding layer's value when that layer sets it, and the
base layer's value otherwise. -/
def Customize.update_with (c upd : Customize) : Customize where
  expose_oneof := upd.expose_oneof.orElse (fun _ => c.expose_oneof)
  expose_fields := upd.expose_fields.orElse (fun _ => c.expose_fields)
  generate_accessors := upd.generate_accessors.orElse (fun _ => c.generate_accessors)
  lite_runtime := upd.lite_runtime.orElse (fun _ => c.lite_runtime)
  bytes_as_custom_buffer := upd.bytes_as_custom_buffer.orElse (fun _ => c.bytes_as_custom_buffer)
  string_as_custom_buffer := upd.string_as_custom_buffer.orElse (fun _ => c.string_as_custom_buffer)
  serialize_with_external_format :=
    upd.serialize_with_external_format.orElse (fun _ => c.serialize_with_external_format)
  serialize_format_guard := upd.serialize_format_guard.orElse (fun _ => c.serialize_format_guard)

/-- `FileOptions_OptimizeMode` as read at `message.rs` line 45. -/
inductive OptimizeMode where
  | SPEED
  | CODE_SIZE
  | LITE_RUNTIME
deriving DecidableEq, Repr

/-- The lite-runtime resolution of `MessageGen::new` (`message.rs` lines
41–47): `customize.lite_runtime.unwrap_or_else(|| file options optimize_for
== LITE_RUNTIME)`, where `customize` is the message-resolved customization. -/
def resolve_lite_runtime (customize : Customize) (file_optimize_for : OptimizeMode) : Bool :=
  customize.lite_runtime.getD (file_optimize_for = OptimizeMode.LITE_RUNTIME)

/-- The descriptor-emission gate of `write_impl_message` (`message.rs`
lines 385–388): `write_descriptor_static` runs iff `!self.lite_runtime`. -/
def descriptor_static_emitted (lite_runtime : Bool) : Bool :=
  !lite_runtime

/-- C6: the reflection-descriptor builder is emitted iff the effective
customization does not select the lite profile, and the lite profile is in
effect exactly when the resolved `lite_runtime` option is `some true`, or
is unset and the file's `optimize_for` is `LITE_RUNTIME`. -/
theorem descriptor_emitted_iff_not_lite (c : Customize) (mode : OptimizeMode) :
    descriptor_static_emitted (resolve_lite_runtime c mode) = true ↔
      ¬(c.lite_runtime = some true
        ∨ (c.lite_runtime = none ∧ mode = OptimizeMode.LITE_RUNTIME)) := by
  cases hl : c.lite_runtime with
  | none =>
    cases mode <;>
      simp [descriptor_static_emitted, resolve_lite_runtime, hl, Option.getD]
  | some b =>
    cases b <;>
      simp [descriptor_static_emitted, resolve_lite_runtime, hl, Option.getD]

/-- C7: customization resolution is a layered override-merge — chaining
`update_with` over defaults, file, message and field layers makes the
field layer's explicitly-set value win; an option unset at the field layer
falls through to the message layer, then the file layer, then the
compiled-in default (shown on the `expose_fields` option, which exists at
all three extension layers in `rustproto.rs`). -/
theorem customize_precedence (dflt file msg fld : Customize) :
    (∀ b, fld.expose_fields = some b →
      (((dflt.update_with file).update_with msg).update_with fld).expose_fields = some b)
    ∧ (fld.expose_fields = none → ∀ b, msg.expose_fields = some b →
      (((dflt.update_with file).update_with msg).update_with fld).expose_fields = some b)
    ∧ (fld.expose_fields = none → msg.expose_fields = none →
        ∀ b, file.expose_fields = some b →
      (((dflt.update_with file).update_with msg).update_with fld).expose_fields = some b)
    ∧ (fld.expose_fields = none → msg.expose_fields = none → file.expose_fields = none →
      (((dflt.update_with file).update_with msg).update_with fld).expose_fields =
        dflt.expose_fields) := by
  refine ⟨?_, ?_, ?_, ?_⟩
  · intro b hb
    simp [Customize.update_with, hb, Option.orElse]
  · intro hf b hb
    simp [Customize.update_with, hf, hb, Option.orElse]
  · intro hf hm b hb
    simp [Customize.update_with, hf, hm, hb, Option.orElse]
  · intro hf hm hfl
    simp [Customize.update_with, hf, hm, hfl, Option.orElse]

/-- Witness for C7: with `expose_fields` set `false` at the file layer,
`true` at the message layer and `false` at the field layer, the resolved
value is the field layer's `false`; and with the field and message layers
unset, the file layer's value wins over the default. -/
theorem customize_precedence_witness :
    (Customize.mk none (some false) none none none none none none).expose_fields = some false
    ∧ ((((Customize.mk none (some true) none none none none none none).update_with
          (Customize.mk none (some false) none none none none none none)).update_with
            (Customize.mk none (some true) none none none none none none)).update_with
              (Customize.mk none (some false) none none none none none none)).expose_fields
        = some false
    ∧ ((((Customize.mk none (some true) none none none none none none).update_with
          (Customize.mk none (some false) none none none none none none)).update_with
            (Customize.mk none none none none none none none none)).update_with
              (Customize.mk none none none none none none none none)).expose_fields
        = some false := by
  refine ⟨rfl, ?_, ?_⟩
  · exact (customize_precedence
      (Customize.mk none (some true) none none none none none none)
      (Customize.mk none (some false) none none none none none none)
      (Customize.mk none (some true) none none none none none none)
      (Customize.mk none (some false) none none none none none none)).1 false rfl
  · exact (customize_precedence
      (Customize.mk none (some true) none none none none none none)
      (Customize.mk none (some false) none none none none none none)
      (Customize.mk none none none none none none none none)
      (Customize.mk none none none none none none none none)).2.2.1 rfl rfl false rfl

/-! ## Recursive descent over nested declarations (`MessageGen::write`,
`message.rs` lines 542–580) -/

/-- A nested enum declaration as seen by the recursion. -/
structure EnumDef where
  ename : String
deriving DecidableEq, Repr

/-- The shape of a message declaration that `MessageGen::write` consumes:
its name, its message-level option layer (`get_options()` merged in
`MessageGen::new`), whether it is a synthetic map-entry message
(`map_entry()`), and its nested message and enum declarations in schema
order. -/
inductive SchemaMsg where
  | mk (name : String) (opts : Customize) (map_entry : Bool)
       (nested_msgs : List SchemaMsg) (nested_enums : List EnumDef)

/-- Whether the declaration is a synthetic map-entry message. -/
def SchemaMsg.is_map_entry : SchemaMsg → Bool
  | .mk _ _ me _ _ => me

/-- One generated artifact bundle: the full per-message artifact set, or
the artifact set of a nested enum, each tagged with the customization it
was generated under. -/
inductive Artifact where
  | messageArtifacts (name : String) (resolved : Customize)
  | enumArtifacts (name : String) (resolved : Customize)
deriving DecidableEq, Repr

mutual

/-- `MessageGen::write` (`message.rs` lines 542–580) combined with the
option merge of `MessageGen::new` (lines 31–34): emit the message's own
artifacts under the message-resolved customization, then recurse into each
nested message declaration (the loop at lines 567–573 skips map entries)
and then into each nested enum declaration (lines 575–579), each nested
generation receiving `&self.customize` — the parent's resolved
customization. -/
def writeMsg (customize : Customize) : SchemaMsg → List Artifact
  | .mk name opts _ msgs enums =>
      Artifact.messageArtifacts name (customize.update_with opts) ::
        (writeNested (customize.update_with opts) msgs
          ++ enums.map (fun e => Artifact.enumArtifacts e.ename (customize.update_with opts)))
  termination_by m => sizeOf m
  decreasing_by all_goals (simp_wf <;> omega)

/-- The nested-message loop: `if nested.map_entry().is_none() {
MessageGen::new(nested, ..., &self.customize).write(w) }`. -/
def writeNested (customize : Customize) : List SchemaMsg → List Artifact
  | [] => []
  | m :: rest =>
      (if m.is_map_entry then [] else writeMsg customize m) ++ writeNested customize rest
  termination_by l => sizeOf l
  decreasing_by all_goals (simp_wf <;> omega)

end

/-- The nested-message loop visits exactly the non-map-entry declarations,
in order. -/
theorem writeNested_eq_filter (customize : Customize) (msgs : List SchemaMsg) :
    writeNested customize msgs =
      (msgs.filter (fun m => !m.is_map_entry)).bind (writeMsg customize) := by
  induction msgs with
  | nil => simp [writeNested]
  | cons m rest ih =>
    by_cases hm : m.is_map_entry <;>
      simp [writeNested, List.filter_cons, hm, ih]

/-- C8: after a message's own artifacts, generation recurses into each
nested message declaration except synthetic map entries and then into each
nested enum declaration, in schema declaration order, every nested
generation using the parent's resolved customization. -/
theorem write_recursive_descent (customize : Customize) (name : String)
    (opts : Customize) (map_entry : Bool) (msgs : List SchemaMsg)
    (enums : List EnumDef) :
    writeMsg customize (SchemaMsg.mk name opts map_entry msgs enums) =
      Artifact.messageArtifacts name (customize.update_with opts) ::
        ((msgs.filter (fun m => !m.is_map_entry)).bind
            (writeMsg (customize.update_with opts))
          ++ enums.map (fun e =>
              Artifact.enumArtifacts e.ename (customize.update_with opts))) := by
  rw [writeMsg, writeNested_eq_filter]

end RustProtobuf
